import Mathlib

/-!
Verification of the Wasynth translation pipeline specification against the
source. Two embeddings are developed:

* `WasmAst` — the operand-stack simulator from `wasm-ast/src/stack.rs`
  (`Slot`, `Stack`, leaking, branch alignment, scope splitting).
* `Gen` — the LuaJIT code generator from `codegen-luajit/src/gen.rs` and
  `codegen/luajit/src/translator.rs` (jump-table condensing, constant
  writing, storage declarations, and the whole-module transpile pipeline).

Rust panics (out-of-bounds indexing, `unwrap`, `unreachable!`, arithmetic
underflow on `usize`) are modelled by `Option`: `none` marks an input on
which the source panics.
-/

namespace WasmAst

/-- `ReadType` from `stack.rs`: the mutable cell an inlined expression reads
(a local, a global, or a linear memory), by index.  The Rust `Local`,
`Global`, `Memory` constructor names are Lean keywords or clash, hence the
`Idx` suffix. -/
inductive ReadType where
  | localIdx (i : Nat)
  | globalIdx (i : Nat)
  | memoryIdx (i : Nat)
deriving DecidableEq

/-- Expression AST from `wasm-ast` (`node.rs`), restricted to the shapes the
stack simulator inspects (`GetLocal`, `GetGlobal`, `GetTemporary`, `LoadAt`)
plus representative other variants so that the wildcard arms of the source
are non-trivial. -/
inductive Expression where
  | getLocal (var : Nat)
  | getGlobal (var : Nat)
  | getTemporary (var : Nat)
  | loadAt (offset : Nat) (pointer : Expression)
  | value (n : Int)
  | anyBinOp (lhs rhs : Expression)
  | select (cond a b : Expression)
deriving DecidableEq

/-- Statement AST from `wasm-ast` (`node.rs`), restricted to the write
statements relevant to the stack simulator; `leak_at` produces
`SetTemporary`. -/
inductive Statement where
  | setTemporary (var : Nat) (value : Expression)
  | setLocal (var : Nat) (value : Expression)
  | setGlobal (var : Nat) (value : Expression)
deriving DecidableEq

/-- `Align` from `node.rs`: the copy descriptor returned by
`Stack::get_br_alignment` (destination first index, source first index,
length). -/
structure Align where
  new : Nat
  old : Nat
  length : Nat
deriving DecidableEq

/-- `Slot` from `stack.rs`: one operand-stack entry, an expression plus its
hazard read-set (the Rust `HashSet<ReadType>` is modelled as a
`Finset`). -/
structure Slot where
  read : Finset ReadType
  data : Expression
deriving DecidableEq

/-- `Slot::is_temporary`: the slot holds a bare `GetTemporary` read of
temporary `id`. -/
def Slot.is_temporary (s : Slot) (id : Nat) : Bool :=
  match s.data with
  | Expression.getTemporary v => v == id
  | _ => false

/-- `Stack` from `stack.rs`: the per-scope operand stack, its temporary
high-water mark `capacity`, and the global numbering offset `previous` of
its first slot. -/
structure Stack where
  var_list : List Slot
  capacity : Nat
  previous : Nat
deriving DecidableEq

/-- `Stack::len`. -/
def Stack.len (s : Stack) : Nat :=
  s.var_list.length

/-- `Stack::split_last`: split off the trailing `len` slots into a new stack
whose `previous` continues the parent numbering.  The result pairs the
updated parent (the retained prefix) with the new stack; `none` models the
`usize` underflow panic of `self.len() - len` when `len > self.len()`. -/
def Stack.split_last (s : Stack) (len : Nat) : Option (Stack × Stack) :=
  if len ≤ s.len then
    let desired := s.len - len
    some ({ s with var_list := s.var_list.take desired },
      { var_list := s.var_list.drop desired
        capacity := s.capacity
        previous := s.previous + desired })
  else none

/-- `Stack::push_with_read`. -/
def Stack.push_with_read (s : Stack) (data : Expression) (read : Finset ReadType) : Stack :=
  { s with var_list := s.var_list ++ [{ read := read, data := data }] }

/-- `Stack::push`. -/
def Stack.push (s : Stack) (data : Expression) : Stack :=
  s.push_with_read data ∅

/-- `Stack::push_with_single`: push a slot whose read-set is the single
hazard determined by the expression's shape; `none` models the
`unreachable!()` panic on any other shape. -/
def Stack.push_with_single (s : Stack) (data : Expression) : Option Stack :=
  match data with
  | Expression.getLocal var =>
      some { s with var_list := s.var_list ++ [{ read := {ReadType.localIdx var}, data := data }] }
  | Expression.getGlobal var =>
      some { s with var_list := s.var_list ++ [{ read := {ReadType.globalIdx var}, data := data }] }
  | Expression.loadAt offset pointer =>
      some { s with var_list :=
        s.var_list ++ [{ read := {ReadType.memoryIdx 0}, data := Expression.loadAt offset pointer }] }
  | _ => none

/-- `Stack::pop_with_read`; `none` models the `unwrap` panic on an empty
stack. -/
def Stack.pop_with_read (s : Stack) : Option ((Expression × Finset ReadType) × Stack) :=
  match s.var_list.getLast? with
  | none => none
  | some slot => some ((slot.data, slot.read), { s with var_list := s.var_list.dropLast })

/-- `Stack::pop`. -/
def Stack.pop (s : Stack) : Option (Expression × Stack) :=
  s.pop_with_read.map (fun p => (p.1.1, p.2))

/-- `Stack::pop_len`: drain the trailing `len` slots, returning their
expressions in order; `none` models the underflow panic. -/
def Stack.pop_len (s : Stack) (len : Nat) : Option (List Expression × Stack) :=
  if len ≤ s.len then
    let desired := s.len - len
    some ((s.var_list.drop desired).map Slot.data,
      { s with var_list := s.var_list.take desired })
  else none

/-- `Stack::push_temporary`: push `num` bare temporary reads numbered from
`len + previous`, then raise the capacity high-water mark. -/
def Stack.push_temporary (s : Stack) (num : Nat) : Stack :=
  let len := s.len + s.previous
  { s with
    var_list := s.var_list ++
      (List.range num).map (fun i => { read := ∅, data := Expression.getTemporary (len + i) })
    capacity := max s.capacity (len + num) }

/-- `Stack::has_read_at`; `none` models the out-of-bounds indexing panic. -/
def Stack.has_read_at (s : Stack) (index : Nat) (read : ReadType) : Option Bool :=
  s.var_list[index]?.map (fun slot => decide (read ∈ slot.read))

/-- `Stack::get_br_alignment`; `none` models the `usize` underflow panic of
`self.len() + self.previous - par_result`. -/
def Stack.get_br_alignment (s : Stack) (par_start par_result : Nat) : Option Align :=
  if par_result ≤ s.len + s.previous then
    some { new := par_start, old := s.len + s.previous - par_result, length := par_result }
  else none

/-- `Stack::leak_at`: materialize the slot at `index` into its canonical
temporary `previous + index` unless it already holds a bare read of it.
Returns the optional `SetTemporary` statement and the updated stack; the
outer `Option` models the out-of-bounds indexing panic. -/
def Stack.leak_at (s : Stack) (index : Nat) : Option (Option Statement × Stack) :=
  match s.var_list[index]? with
  | none => none
  | some old =>
      let var := s.previous + index
      if old.is_temporary var then
        some (none, s)
      else
        some (some (Statement.setTemporary var old.data),
          { s with
            var_list := s.var_list.set index { read := ∅, data := Expression.getTemporary var }
            capacity := max s.capacity (var + 1) })

/-- A concrete two-slot stack used by the witnesses: a hazardous global read
on top of a plain local read, with `previous = 3` and no capacity yet. -/
def stackEx : Stack :=
  { var_list :=
      [{ read := ∅, data := Expression.getLocal 0 },
       { read := {ReadType.globalIdx 1}, data := Expression.getGlobal 1 }]
    capacity := 0
    previous := 3 }

/-- The stack `stackEx` after leaking slot 1: the slot now reads its
canonical temporary 4 and the capacity high-water mark is 5. -/
def stackExLeaked : Stack :=
  { var_list :=
      [{ read := ∅, data := Expression.getLocal 0 },
       { read := ∅, data := Expression.getTemporary 4 }]
    capacity := 5
    previous := 3 }

/-- The retained parent half of `stackEx.split_last 1`. -/
def stackParentEx : Stack :=
  { var_list := [{ read := ∅, data := Expression.getLocal 0 }]
    capacity := 0
    previous := 3 }

/-- The new child half of `stackEx.split_last 1`: it owns the old top slot
and its numbering continues at `previous = 4`. -/
def stackChildEx : Stack :=
  { var_list := [{ read := {ReadType.globalIdx 1}, data := Expression.getGlobal 1 }]
    capacity := 0
    previous := 4 }

end WasmAst

namespace Gen

/-- Inner loop of `condense_jump_table` (`gen.rs`): starting just after
position `index`, advance while consecutive entries are equal; returns the
first position past the run.  The Rust `loop`/`break` is embedded with an
explicit fuel argument; `innerEnd` below supplies fuel that always
suffices, so the fuel-exhausted arm is unreachable. -/
def innerEndAux (list : List Nat) : Nat → Nat → Nat
  | 0, index => index + 1
  | fuel + 1, index =>
      if index + 1 < list.length ∧ list[index]? = list[index + 1]? then
        innerEndAux list fuel (index + 1)
      else
        index + 1

/-- One past the end of the run of equal entries starting at `index`. -/
def innerEnd (list : List Nat) (index : Nat) : Nat :=
  innerEndAux list (list.length - index) index

/-- Outer loop of `condense_jump_table`: emit one `(start, end, target)`
triple per run, then continue at the run's end.  Fuel-embedded as above. -/
def condenseGoAux (list : List Nat) : Nat → Nat → List (Nat × Nat × Nat)
  | 0, _ => []
  | fuel + 1, index =>
      if index < list.length then
        (index, innerEnd list index - 1, list.getD index 0) ::
          condenseGoAux list fuel (innerEnd list index)
      else []

/-- `condense_jump_table` from `gen.rs`: the list of maximal runs of equal
targets, as `(start, end, target)` triples. -/
def condense_jump_table (list : List Nat) : List (Nat × Nat × Nat) :=
  condenseGoAux list list.length 0

/-- Specification predicate: the `(start, end, target)` triples tile the
index interval `[first, stop)` contiguously, each with `start ≤ end`. -/
def contiguousSpan (stop : Nat) : Nat → List (Nat × Nat × Nat) → Prop
  | first, [] => first = stop
  | first, (s, e, _) :: rest => s = first ∧ first ≤ e ∧ e < stop ∧ contiguousSpan stop (e + 1) rest

/-- Fallible map, embedding a Rust `for` loop whose body propagates errors
with `?`: stops at the first `none`. -/
def mapOption {α β : Type} (f : α → Option β) : List α → Option (List β)
  | [] => some []
  | a :: t => (f a).bind fun b => (mapOption f t).map fun bs => b :: bs

/-- `write_br_at` from `gen.rs`: resolve a branch depth against the label
stack (`nth_back(up)`, i.e. `up` positions from the innermost end) and jump
to it; `none` models the `unwrap` panic on an out-of-range depth. -/
def write_br_at (label_list : List Nat) (up : Nat) : Option String :=
  label_list.reverse[up]?.map (fun level => "goto continue_at_" ++ toString level ++ " ")

/-- One loop iteration of the `BrTable` emitter in `gen.rs`: the guard text
written for one condensed run `(start, end, target)` — an equality test for
a one-entry run, a range test otherwise — followed by the branch and the
`else` that chains to the next guard. -/
def brTableGuard (label_list : List Nat) (g : Nat × Nat × Nat) : Option String :=
  (write_br_at label_list g.2.2).map (fun br =>
    (if g.1 = g.2.1 then
      "if temp == " ++ toString g.1 ++ " then "
    else
      "if temp >= " ++ toString g.1 ++ " and temp <= " ++ toString g.2.1 ++ " then ")
    ++ br ++ "else")

/-- Operator description for binary/compare operations: `as_name()` is the
`(head, tail)` pair and `as_operator()` the optional native Lua symbol. -/
structure OpInfo where
  head : String
  tail : String
  operator : Option String
deriving DecidableEq

/-- `Value` from the `wasm-ast` node set used by `gen.rs`; floats are
carried as raw IEEE-754 bit patterns, exactly as the constant writer
receives them (`F32Const`/`F64Const` carry bits). -/
inductive Value where
  | i32 (v : Int)
  | i64 (v : Int)
  | f32 (bits : Nat)
  | f64 (bits : Nat)
deriving DecidableEq

/-- Expression AST mirrored from the `Driver` impls in `gen.rs`
(`Recall`, `Select`, `GetLocal`, `GetGlobal`, `AnyLoad`, `MemorySize`,
`MemoryGrow`, `Value`, `AnyUnOp`, `AnyBinOp`, `AnyCmpOp`).  Load/store ops
contribute only their `as_name()` string; unary ops only their name pair. -/
inductive Expression where
  | recall (var : Nat)
  | select (cond a b : Expression)
  | getLocal (var : Nat)
  | getGlobal (var : Nat)
  | anyLoad (op : String) (offset : Nat) (pointer : Expression)
  | memorySize (memory : Nat)
  | memoryGrow (memory : Nat) (value : Expression)
  | value (v : Value)
  | anyUnOp (op : String × String) (rhs : Expression)
  | anyBinOp (op : OpInfo) (lhs rhs : Expression)
  | anyCmpOp (op : OpInfo) (lhs rhs : Expression)
deriving DecidableEq

/-- Statement AST mirrored from the `Driver` impls in `gen.rs`.  `If` and
`Return` are Lean keywords, hence `ifStmt`/`ret`; the `Else` node is its
body list; call results are `Range<usize>` pairs `(start, stop)`. -/
inductive Statement where
  | unreachable
  | memorize (var : Nat) (value : Expression)
  | forward (body : List Statement)
  | backward (body : List Statement)
  | ifStmt (cond : Expression) (truthy : List Statement) (falsey : Option (List Statement))
  | br (target : Nat)
  | brIf (cond : Expression) (target : Nat)
  | brTable (cond : Expression) (table : List Nat) (default : Nat)
  | ret (list : List Expression)
  | call (func : Nat) (result : Nat × Nat) (param_list : List Expression)
  | callIndirect (table : Nat) (index : Expression) (result : Nat × Nat)
      (param_list : List Expression)
  | setLocal (var : Nat) (value : Expression)
  | setGlobal (var : Nat) (value : Expression)
  | anyStore (op : String) (offset : Nat) (pointer : Expression) (value : Expression)

/-- A local-declaration group from the function body: `(count, value_type)`
as printed by `write_variable_list`. -/
structure LocalGroup where
  count : Nat
  value_type : String
deriving DecidableEq

/-- `Function` from `wasm-ast` as consumed by the `gen.rs` emitter: the
parameter count, the local groups, the temporary high-water mark
`num_stack`, and the body statement. -/
structure Function where
  num_param : Nat
  local_data : List LocalGroup
  num_stack : Nat
  code : Statement

/-- `Visitor` from `gen.rs`: the open-label stack, the next label number,
and the parameter count of the function being emitted. -/
structure Visitor where
  label_list : List Nat
  num_label : Nat
  num_param : Nat
deriving DecidableEq

/-- `Visitor::push_label`: returns the fresh label and the updated
visitor. -/
def Visitor.push_label (v : Visitor) : Nat × Visitor :=
  (v.num_label,
    { v with label_list := v.label_list ++ [v.num_label], num_label := v.num_label + 1 })

/-- `Visitor::pop_label`.  In the emitter every pop follows a push on the
same path, so the empty case (an `unwrap` panic in the source) is
unreachable; it is modelled as the identity on the empty list. -/
def Visitor.pop_label (v : Visitor) : Visitor :=
  { v with label_list := v.label_list.dropLast }

/-- `write_variable` from `gen.rs`: parameters keep their index, locals are
renumbered past the parameter count (`checked_sub`). -/
def write_variable (v : Visitor) (var : Nat) : String :=
  if v.num_param ≤ var then
    "loc_" ++ toString (var - v.num_param) ++ " "
  else
    "param_" ++ toString var ++ " "

/-- Uppercase hexadecimal digit. -/
def hexDigit (n : Nat) : String :=
  String.singleton (("0123456789ABCDEF".toList).getD n '0')

/-- One byte of a data segment, escaped as in `gen.rs` (`\x{v:02X}`). -/
def byteEscape (b : Nat) : String :=
  "\\x" ++ hexDigit (b % 256 / 16) ++ hexDigit (b % 16)

/-- Modelled from the spec: the source prints a finite `f32` with Rust's
`{number:e}` round-trippable exponential formatting.  Decimal float
formatting is outside the shallow embedding; the finite case is therefore
represented by an (injective, deterministic) rendering of the raw bits. -/
def f32_finite_text (bits : Nat) : String :=
  "f32_bits(" ++ toString bits ++ ") "

/-- Modelled from the spec: as `f32_finite_text`, for `f64`. -/
def f64_finite_text (bits : Nat) : String :=
  "f64_bits(" ++ toString bits ++ ") "

/-- `write_f32` from `gen.rs`, on the raw bit pattern: sign prefix, then
`math.huge` for infinities, `0/0` for NaNs, else the finite rendering. -/
def write_f32_bits (bits : Nat) : String :=
  let b := bits % 2 ^ 32
  let sign := if 2 ^ 31 ≤ b then "-" else ""
  let expo := b / 2 ^ 23 % 2 ^ 8
  let mant := b % 2 ^ 23
  if expo = 255 ∧ mant = 0 then sign ++ "math.huge "
  else if expo = 255 then sign ++ "0/0 "
  else sign ++ f32_finite_text (b % 2 ^ 31)

/-- `write_f64` from `gen.rs`, on the raw bit pattern. -/
def write_f64_bits (bits : Nat) : String :=
  let b := bits % 2 ^ 64
  let sign := if 2 ^ 63 ≤ b then "-" else ""
  let expo := b / 2 ^ 52 % 2 ^ 11
  let mant := b % 2 ^ 52
  if expo = 2047 ∧ mant = 0 then sign ++ "math.huge "
  else if expo = 2047 then sign ++ "0/0 "
  else sign ++ f64_finite_text (b % 2 ^ 63)

/-- The `Driver` impl for `Value` in `gen.rs`. -/
def write_value : Value → String
  | Value.i32 v => toString v ++ " "
  | Value.i64 v => toString v ++ "LL "
  | Value.f32 bits => write_f32_bits bits
  | Value.f64 bits => write_f64_bits bits

/-- `write_ascending` from `gen.rs`: `pre_a, pre_(a+1), ..., pre_(b-1)` for
the range `(a, b)`, comma-separated (`write_separated`). -/
def write_ascending (pre : String) (range : Nat × Nat) : String :=
  String.intercalate ", "
    ((List.range' range.1 (range.2 - range.1)).map (fun i => pre ++ "_" ++ toString i))

/-- `write_call_store` from `gen.rs`: nothing for an empty result range,
else the ascending `reg` list and ` = `. -/
def write_call_store (result : Nat × Nat) : String :=
  if result.2 ≤ result.1 then ""
  else write_ascending "reg" result ++ " = "

/-- The expression `Driver` impls of `gen.rs` as one recursive function.
The expression visitors never modify the `Visitor` (they only read
`num_param`), so this returns a plain string.  In the `Select` and
`AnyCmpOp` arms the bodies of the source helpers `write_as_condition`
and `write_any_cmp` are inlined (they recurse into subexpressions only);
the standalone `write_as_condition`/`write_any_cmp` below reproduce them
for use from statements. -/
def visitExpr (v : Visitor) : Expression → String
  | Expression.recall var => "reg_" ++ toString var ++ " "
  | Expression.select cond a b =>
      "(" ++
      (match cond with
        | Expression.anyCmpOp op lhs rhs =>
            match op.operator with
            | some o => visitExpr v lhs ++ o ++ " " ++ visitExpr v rhs
            | none =>
                op.head ++ "_" ++ op.tail ++ "(" ++ visitExpr v lhs ++ ", " ++
                  visitExpr v rhs ++ ")"
        | c => visitExpr v c ++ "~= 0 ") ++
      "and " ++ visitExpr v a ++ "or " ++ visitExpr v b ++ ")"
  | Expression.getLocal var => write_variable v var
  | Expression.getGlobal var => "GLOBAL_LIST[" ++ toString var ++ "].value "
  | Expression.anyLoad op offset pointer =>
      "load_" ++ op ++ "(memory_at_0, " ++ visitExpr v pointer ++ "+ " ++ toString offset ++ ")"
  | Expression.memorySize memory => "memory_at_" ++ toString memory ++ ".min "
  | Expression.memoryGrow memory value =>
      "rt.allocator.grow(memory_at_" ++ toString memory ++ ", " ++ visitExpr v value ++ ")"
  | Expression.value val => write_value val
  | Expression.anyUnOp op rhs =>
      op.1 ++ "_" ++ op.2 ++ "(" ++ visitExpr v rhs ++ ")"
  | Expression.anyBinOp op lhs rhs =>
      match op.operator with
      | some o => "(" ++ visitExpr v lhs ++ o ++ " " ++ visitExpr v rhs ++ ")"
      | none =>
          op.head ++ "_" ++ op.tail ++ "(" ++ visitExpr v lhs ++ ", " ++ visitExpr v rhs ++ ")"
  | Expression.anyCmpOp op lhs rhs =>
      "(" ++
      (match op.operator with
        | some o => visitExpr v lhs ++ o ++ " " ++ visitExpr v rhs
        | none =>
            op.head ++ "_" ++ op.tail ++ "(" ++ visitExpr v lhs ++ ", " ++
              visitExpr v rhs ++ ")") ++
      "and 1 or 0)"

/-- `write_any_cmp` from `gen.rs`: native operator when present, else the
helper call. -/
def write_any_cmp (v : Visitor) (op : OpInfo) (lhs rhs : Expression) : String :=
  match op.operator with
  | some o => visitExpr v lhs ++ o ++ " " ++ visitExpr v rhs
  | none => op.head ++ "_" ++ op.tail ++ "(" ++ visitExpr v lhs ++ ", " ++ visitExpr v rhs ++ ")"

/-- `write_as_condition` from `gen.rs`: a comparison is emitted as the bare
relational test, anything else is compared against zero. -/
def write_as_condition (v : Visitor) : Expression → String
  | Expression.anyCmpOp op lhs rhs => write_any_cmp v op lhs rhs
  | e => visitExpr v e ++ "~= 0 "

/-- `write_expr_list` from `gen.rs` (`write_separated` with `", "`). -/
def write_expr_list (v : Visitor) (list : List Expression) : String :=
  String.intercalate ", " (list.map (visitExpr v))

mutual

/-- The statement `Driver` impls of `gen.rs`.  The visitor state (label
stack, fresh-label counter) is threaded explicitly; `none` models the
`unwrap` panic of `write_br_at` on an out-of-range branch depth. -/
def visitStmt (v : Visitor) : Statement → Option (Visitor × String)
  | Statement.unreachable => some (v, "error(\"out of code bounds\")")
  | Statement.memorize var value =>
      some (v, "reg_" ++ toString var ++ " = " ++ visitExpr v value)
  | Statement.forward body =>
      let p := v.push_label
      (visitBody p.2 body).map (fun r =>
        (r.1.pop_label, r.2 ++ "::continue_at_" ++ toString p.1 ++ "::"))
  | Statement.backward body =>
      let p := v.push_label
      (visitBody p.2 body).map (fun r =>
        (r.1.pop_label,
          "::continue_at_" ++ toString p.1 ++ "::" ++ "while true do " ++ r.2 ++
            "break " ++ "end "))
  | Statement.ifStmt cond truthy falsey =>
      let p := v.push_label
      (visitBody p.2 truthy).bind (fun r1 =>
        (visitElse r1.1 falsey).map (fun r2 =>
          (r2.1.pop_label,
            "if " ++ write_as_condition p.2 cond ++ "then " ++ r1.2 ++ r2.2 ++
              "::continue_at_" ++ toString p.1 ++ "::" ++ "end ")))
  | Statement.br target =>
      (write_br_at v.label_list target).map (fun t => (v, t))
  | Statement.brIf cond target =>
      (write_br_at v.label_list target).map (fun t =>
        (v, "if " ++ write_as_condition v cond ++ "then " ++ t ++ "end "))
  | Statement.brTable cond table default =>
      (mapOption (brTableGuard v.label_list) (condense_jump_table table)).bind (fun gs =>
        (write_br_at v.label_list default).map (fun d =>
          (v, "temp = " ++ visitExpr v cond ++ " " ++ String.join gs ++ " " ++ d ++ "end ")))
  | Statement.ret list => some (v, "do return " ++ write_expr_list v list ++ "end ")
  | Statement.call func result param_list =>
      some (v, write_call_store result ++ "FUNC_LIST[" ++ toString func ++ "](" ++
        write_expr_list v param_list ++ ")")
  | Statement.callIndirect table index result param_list =>
      some (v, write_call_store result ++ "TABLE_LIST[" ++ toString table ++ "].data[" ++
        visitExpr v index ++ "](" ++ write_expr_list v param_list ++ ")")
  | Statement.setLocal var value =>
      some (v, write_variable v var ++ "= " ++ visitExpr v value)
  | Statement.setGlobal var value =>
      some (v, "GLOBAL_LIST[" ++ toString var ++ "].value = " ++ visitExpr v value)
  | Statement.anyStore op offset pointer value =>
      some (v, "store_" ++ op ++ "(memory_at_0, " ++ visitExpr v pointer ++ "+ " ++
        toString offset ++ ", " ++ visitExpr v value ++ ")")

/-- The `Else` driver of `gen.rs`: `else ` followed by the body; nothing
when the `If` has no `falsey` arm. -/
def visitElse (v : Visitor) : Option (List Statement) → Option (Visitor × String)
  | none => some (v, "")
  | some els => (visitBody v els).map (fun r => (r.1, "else " ++ r.2))

/-- Emit a statement sequence (the `try_for_each` loops of `gen.rs`),
threading the visitor and concatenating the text. -/
def visitBody (v : Visitor) : List Statement → Option (Visitor × String)
  | [] => some (v, "")
  | s :: rest =>
      (visitStmt v s).bind (fun r1 =>
        (visitBody r1.1 rest).map (fun r2 => (r2.1, r1.2 ++ r2.2)))

end

/-- `write_parameter_list` from `gen.rs`. -/
def write_parameter_list (f : Function) : String :=
  "function(" ++ write_ascending "param" (0, f.num_param) ++ ")"

/-- `write_variable_list` from `gen.rs`: one `local` declaration per local
group, zero-initialized with the group's typed zero literal, then the `reg`
temporaries sized by `num_stack`. -/
def write_variable_list (f : Function) : String :=
  let step := fun (acc : Nat × String) (data : LocalGroup) =>
    let range := (acc.1, acc.1 + data.count)
    (range.2,
      acc.2 ++ "local " ++ write_ascending "loc" range ++ " = " ++
        String.intercalate ", "
          ((List.range' range.1 (range.2 - range.1)).map
            (fun _ => "ZERO_" ++ data.value_type ++ " ")))
  (f.local_data.foldl step (0, "")).2 ++
    (if f.num_stack ≠ 0 then "local " ++ write_ascending "reg" (0, f.num_stack) ++ " " else "")

mutual

/-- Modelled from the spec: `analyzer::memory::visit` (not under `src/`)
scans a function AST for every memory index touched.  Loads and stores
touch memory 0 (the index the emitters hard-code); `MemorySize` and
`MemoryGrow` carry their memory index. -/
def exprMemory : Expression → List Nat
  | Expression.recall _ => []
  | Expression.select cond a b => exprMemory cond ++ exprMemory a ++ exprMemory b
  | Expression.getLocal _ => []
  | Expression.getGlobal _ => []
  | Expression.anyLoad _ _ pointer => 0 :: exprMemory pointer
  | Expression.memorySize memory => [memory]
  | Expression.memoryGrow memory value => memory :: exprMemory value
  | Expression.value _ => []
  | Expression.anyUnOp _ rhs => exprMemory rhs
  | Expression.anyBinOp _ lhs rhs => exprMemory lhs ++ exprMemory rhs
  | Expression.anyCmpOp _ lhs rhs => exprMemory lhs ++ exprMemory rhs

/-- Memory indices touched by a statement (see `exprMemory`). -/
def stmtMemory : Statement → List Nat
  | Statement.unreachable => []
  | Statement.memorize _ value => exprMemory value
  | Statement.forward body => bodyMemory body
  | Statement.backward body => bodyMemory body
  | Statement.ifStmt cond truthy falsey =>
      exprMemory cond ++ bodyMemory truthy ++
        (match falsey with
          | none => []
          | some els => bodyMemory els)
  | Statement.br _ => []
  | Statement.brIf cond _ => exprMemory cond
  | Statement.brTable cond _ _ => exprMemory cond
  | Statement.ret list => (list.map exprMemory).flatten
  | Statement.call _ _ param_list => (list_exprMemory param_list)
  | Statement.callIndirect _ index _ param_list =>
      exprMemory index ++ list_exprMemory param_list
  | Statement.setLocal _ value => exprMemory value
  | Statement.setGlobal _ value => exprMemory value
  | Statement.anyStore _ _ pointer value => 0 :: (exprMemory pointer ++ exprMemory value)

/-- Memory indices touched by an expression list. -/
def list_exprMemory : List Expression → List Nat
  | [] => []
  | e :: rest => exprMemory e ++ list_exprMemory rest

/-- Memory indices touched by a statement sequence. -/
def bodyMemory : List Statement → List Nat
  | [] => []
  | s :: rest => stmtMemory s ++ bodyMemory rest

end

/-- Sorted deduplicated memory index set of a function (the `BTreeSet`
ordering of the source's analyzer). -/
def memoryVisit (f : Function) : List Nat :=
  ((stmtMemory f.code).dedup).mergeSort (fun a b => a ≤ b)

mutual

/-- Modelled from the spec: `analyzer::localize::visit` (not under `src/`)
enumerates every helper identity `(head, tail)` a function AST references —
unary ops always, binary/compare ops only when they have no native
operator, and the load/store helpers. -/
def exprHelpers : Expression → List (String × String)
  | Expression.recall _ => []
  | Expression.select cond a b => exprHelpers cond ++ exprHelpers a ++ exprHelpers b
  | Expression.getLocal _ => []
  | Expression.getGlobal _ => []
  | Expression.anyLoad op _ pointer => ("load", op) :: exprHelpers pointer
  | Expression.memorySize _ => []
  | Expression.memoryGrow _ value => exprHelpers value
  | Expression.value _ => []
  | Expression.anyUnOp op rhs => op :: exprHelpers rhs
  | Expression.anyBinOp op lhs rhs =>
      (match op.operator with
        | some _ => []
        | none => [(op.head, op.tail)]) ++ exprHelpers lhs ++ exprHelpers rhs
  | Expression.anyCmpOp op lhs rhs =>
      (match op.operator with
        | some _ => []
        | none => [(op.head, op.tail)]) ++ exprHelpers lhs ++ exprHelpers rhs

/-- Helper identities referenced by a statement (see `exprHelpers`). -/
def stmtHelpers : Statement → List (String × String)
  | Statement.unreachable => []
  | Statement.memorize _ value => exprHelpers value
  | Statement.forward body => bodyHelpers body
  | Statement.backward body => bodyHelpers body
  | Statement.ifStmt cond truthy falsey =>
      exprHelpers cond ++ bodyHelpers truthy ++
        (match falsey with
          | none => []
          | some els => bodyHelpers els)
  | Statement.br _ => []
  | Statement.brIf cond _ => exprHelpers cond
  | Statement.brTable cond _ _ => exprHelpers cond
  | Statement.ret list => list_exprHelpers list
  | Statement.call _ _ param_list => list_exprHelpers param_list
  | Statement.callIndirect _ index _ param_list =>
      exprHelpers index ++ list_exprHelpers param_list
  | Statement.setLocal _ value => exprHelpers value
  | Statement.setGlobal _ value => exprHelpers value
  | Statement.anyStore op _ pointer value =>
      ("store", op) :: (exprHelpers pointer ++ exprHelpers value)

/-- Helper identities referenced by an expression list. -/
def list_exprHelpers : List Expression → List (String × String)
  | [] => []
  | e :: rest => exprHelpers e ++ list_exprHelpers rest

/-- Helper identities referenced by a statement sequence. -/
def bodyHelpers : List Statement → List (String × String)
  | [] => []
  | s :: rest => stmtHelpers s ++ bodyHelpers rest

end

/-- The `BTreeSet` ordering on helper identity pairs. -/
def pairLe (a b : String × String) : Bool :=
  if a.1 = b.1 then decide (a.2 ≤ b.2) else decide (a.1 < b.1)

/-- The `Driver` impl for `Function` in `gen.rs`: parameter list, localized
memory bindings, local/temporary declarations, the scratch `temp`, then the
body with `num_param` installed in the visitor. -/
def visitFunction (f : Function) : Option String :=
  let v : Visitor := { label_list := [], num_label := 0, num_param := f.num_param }
  (visitStmt v f.code).map (fun r =>
    write_parameter_list f ++
      String.join ((memoryVisit f).map (fun i =>
        "local memory_at_" ++ toString i ++ " = MEMORY_LIST[" ++ toString i ++ "]")) ++
      write_variable_list f ++ "local temp " ++ r.2 ++ "end ")

/-- The instruction forms the constant writer of `gen.rs` distinguishes:
the recognized constant forms, and an opaque remainder (e.g. `End`, or any
non-constant instruction), tagged so that distinct unrecognized
instructions exist. -/
inductive ConstInstruction where
  | i32Const (v : Int)
  | i64Const (v : Int)
  | f32Const (bits : Nat)
  | f64Const (bits : Nat)
  | getGlobal (i : Nat)
  | other (tag : Nat)
deriving DecidableEq

/-- Whether `write_constant` recognizes the instruction as a constant
form. -/
def recognized : ConstInstruction → Bool
  | ConstInstruction.i32Const _ => true
  | ConstInstruction.i64Const _ => true
  | ConstInstruction.f32Const _ => true
  | ConstInstruction.f64Const _ => true
  | ConstInstruction.getGlobal _ => true
  | ConstInstruction.other _ => false

/-- `write_constant` from `gen.rs`: scan the instruction sequence, emit the
first recognized constant form and stop; if none is found, emit the
guaranteed-failing placeholder call.  The writer cannot fail, so the result
is a plain string. -/
def write_constant : List ConstInstruction → String
  | [] => "error(\"mundane expression\")"
  | inst :: rest =>
      match inst with
      | ConstInstruction.i32Const v => toString v ++ " "
      | ConstInstruction.i64Const v => toString v ++ "LL "
      | ConstInstruction.f32Const bits => write_f32_bits bits
      | ConstInstruction.f64Const bits => write_f64_bits bits
      | ConstInstruction.getGlobal i => "GLOBAL_LIST[" ++ toString i ++ "].value "
      | ConstInstruction.other _ => write_constant rest

/-- The `len`/array-size argument `write_named_array` passes to
`table_new`: the total count, saturating-decremented by one. -/
def named_array_len_arg (len : Nat) : Nat :=
  len - 1

/-- The hash-size argument `write_named_array` passes to `table_new`:
one slot when the space is non-empty (it holds index 0). -/
def named_array_hash_arg (len : Nat) : Nat :=
  min len 1

/-- `write_named_array` from `gen.rs`/`translator.rs`: one pre-sized
storage declaration via LuaJIT's `table.new`. -/
def write_named_array (name : String) (len : Nat) : String :=
  "local " ++ name ++ " = table_new(" ++ toString (named_array_len_arg len) ++ ", " ++
    toString (named_array_hash_arg len) ++ ")"

/-- The four index-space kinds of `parity_wasm::External`/`Internal`. -/
inductive ExternalKind where
  | func
  | table
  | memory
  | global
deriving DecidableEq

/-- One import entry: source module, field name, and index-space kind. -/
structure ImportEntry where
  module : String
  field : String
  kind : ExternalKind
deriving DecidableEq

/-- One export entry: exported field name, kind, and backing index. -/
structure ExportEntry where
  field : String
  kind : ExternalKind
  index : Nat
deriving DecidableEq

/-- `ResizableLimits`: initial size and optional maximum. -/
structure Limits where
  initial : Nat
  maximum : Option Nat
deriving DecidableEq

/-- One global entry: its constant initializer code. -/
structure GlobalEntry where
  init_code : List ConstInstruction
deriving DecidableEq

/-- One active element segment: target table, offset code, member function
indices. -/
structure ElementEntry where
  index : Nat
  offset_code : List ConstInstruction
  members : List Nat
deriving DecidableEq

/-- One active data segment: target memory, offset code, raw bytes. -/
structure DataEntry where
  index : Nat
  offset_code : List ConstInstruction
  value : List Nat
deriving DecidableEq

/-- The module as the `gen.rs` generator consumes it, post front end.
The code section is represented by the function ASTs the external
`Builder` produces for it — modelled from the spec (`builder.rs` is not
under `src/`): the Builder deterministically maps each function's
instruction stream and the module `TypeInfo` to a `Function` AST. -/
structure Module where
  imports : List ImportEntry
  exports : List ExportEntry
  tables : List Limits
  memories : List Limits
  globals : List GlobalEntry
  elements : List ElementEntry
  data : List DataEntry
  start : Option Nat
  func_names : List (Nat × String)
  funcs : List Function

/-- `Module::import_count` by kind. -/
def Module.import_count (m : Module) (kind : ExternalKind) : Nat :=
  (m.imports.filter (fun v => v.kind = kind)).length

/-- `Module::functions_space`: imported plus locally-defined functions. -/
def Module.functions_space (m : Module) : Nat :=
  m.import_count ExternalKind.func + m.funcs.length

/-- `Module::table_space`. -/
def Module.table_space (m : Module) : Nat :=
  m.import_count ExternalKind.table + m.tables.length

/-- `Module::memory_space`. -/
def Module.memory_space (m : Module) : Nat :=
  m.import_count ExternalKind.memory + m.memories.length

/-- `Module::globals_space`. -/
def Module.globals_space (m : Module) : Nat :=
  m.import_count ExternalKind.global + m.globals.length

/-- `new_limit_max` from `gen.rs`: the declared maximum, or the substituted
default `0xFFFF` when the module gives none. -/
def new_limit_max (limits : Limits) : String :=
  match limits.maximum with
  | some v => toString v
  | none => "0xFFFF"

/-- `write_table_init` from `gen.rs`. -/
def write_table_init (limit : Limits) : String :=
  "\x7b min = " ++ toString limit.initial ++ ", max = " ++ new_limit_max limit ++
    ", data = \x7b\x7d \x7d"

/-- `write_memory_init` from `gen.rs`. -/
def write_memory_init (limit : Limits) : String :=
  "rt.allocator.new(" ++ toString limit.initial ++ ", " ++ new_limit_max limit ++ ")"

/-- `Generator::gen_import_of` from `gen.rs`: one assignment per import of
the kind, enumerated within the kind. -/
def gen_import_of (m : Module) (lower : String) (kind : ExternalKind) : String :=
  String.join (((m.imports.filter (fun v => v.kind = kind)).enum).map (fun p =>
    lower.toUpper ++ "[" ++ toString p.1 ++ "] = wasm." ++ p.2.module ++ "." ++ lower ++
      "." ++ p.2.field ++ " "))

/-- `Generator::gen_export_of` from `gen.rs`: the export sub-record for one
kind. -/
def gen_export_of (m : Module) (lower : String) (kind : ExternalKind) : String :=
  lower ++ " = \x7b" ++
    String.join ((m.exports.filter (fun v => v.kind = kind)).map (fun v =>
      v.field ++ " = " ++ lower.toUpper ++ "[" ++ toString v.index ++ "],")) ++
    "\x7d,"

/-- `Generator::gen_import_list`. -/
def gen_import_list (m : Module) : String :=
  gen_import_of m "func_list" ExternalKind.func ++
    gen_import_of m "table_list" ExternalKind.table ++
    gen_import_of m "memory_list" ExternalKind.memory ++
    gen_import_of m "global_list" ExternalKind.global

/-- `Generator::gen_export_list`. -/
def gen_export_list (m : Module) : String :=
  gen_export_of m "func_list" ExternalKind.func ++
    gen_export_of m "table_list" ExternalKind.table ++
    gen_export_of m "memory_list" ExternalKind.memory ++
    gen_export_of m "global_list" ExternalKind.global

/-- `Generator::gen_table_list`: locally-defined tables land after the
imported ones. -/
def gen_table_list (m : Module) : String :=
  String.join ((m.tables.enum).map (fun p =>
    "TABLE_LIST[" ++ toString (p.1 + m.import_count ExternalKind.table) ++ "] =" ++
      write_table_init p.2))

/-- `Generator::gen_memory_list`. -/
def gen_memory_list (m : Module) : String :=
  String.join ((m.memories.enum).map (fun p =>
    "MEMORY_LIST[" ++ toString (p.1 + m.import_count ExternalKind.memory) ++ "] =" ++
      write_memory_init p.2))

/-- The text `gen_global_list` writes for the global at (absolute) index
`idx`. -/
def global_entry_text (idx : Nat) (g : GlobalEntry) : String :=
  "GLOBAL_LIST[" ++ toString idx ++ "] = \x7b value =" ++ write_constant g.init_code ++ "\x7d"

/-- `Generator::gen_global_list`. -/
def gen_global_list (m : Module) : String :=
  String.join ((m.globals.enum).map (fun p =>
    global_entry_text (p.1 + m.import_count ExternalKind.global) p.2))

/-- `Generator::gen_element_list`. -/
def gen_element_list (m : Module) : String :=
  String.join (m.elements.map (fun v =>
    "do " ++ "local target = TABLE_LIST[" ++ toString v.index ++ "].data " ++
      "local offset =" ++ write_constant v.offset_code ++
      "local data = \x7b" ++
      String.join (v.members.map (fun i => "FUNC_LIST[" ++ toString i ++ "],")) ++
      "\x7d" ++ "table.move(data, 1, #data, offset, target)" ++ "end "))

/-- `Generator::gen_data_list`. -/
def gen_data_list (m : Module) : String :=
  String.join (m.data.map (fun v =>
    "do " ++ "local target = MEMORY_LIST[" ++ toString v.index ++ "]" ++
      "local offset =" ++ write_constant v.offset_code ++
      "local data = \"" ++ String.join (v.value.map byteEscape) ++ "\"" ++
      "rt.allocator.init(target, offset, data)" ++ "end "))

/-- `Generator::gen_start_point`: the init routine, then the module-entry
function wiring imports, running init, calling the start function if
declared, and returning the export record. -/
def gen_start_point (m : Module) : String :=
  "local function run_init_code()" ++ gen_table_list m ++ gen_memory_list m ++
    gen_global_list m ++ gen_element_list m ++ gen_data_list m ++ "end " ++
    "return function(wasm)" ++ gen_import_list m ++ "run_init_code()" ++
    (match m.start with
      | some s => "FUNC_LIST[" ++ toString s ++ "]()"
      | none => "") ++
    "return \x7b" ++ gen_export_list m ++ "\x7d end "

/-- `Generator::gen_localize` from `gen.rs`: the helper identities of all
functions, in `BTreeSet` (sorted, deduplicated) order, each bound once. -/
def gen_localize (func_list : List Function) : String :=
  String.join
    ((((func_list.map (fun f => stmtHelpers f.code)).flatten).dedup.mergeSort pairLe).map
      (fun ab => "local " ++ ab.1 ++ "_" ++ ab.2 ++ " = rt." ++ ab.1 ++ "." ++ ab.2 ++ " "))

/-- `write_func_start` from `gen.rs`: the `FUNC_LIST` slot assignment with
the optional name-section comment; defined functions land after the
`len_ex` imported ones. -/
def write_func_start (m : Module) (index offset : Nat) : String :=
  "FUNC_LIST" ++
    (match m.func_names.lookup index with
      | some name => "--[[" ++ name ++ "]]"
      | none => "") ++
    "[" ++ toString (index + offset) ++ "] ="

/-- `Generator::gen_func_list`: one function literal per AST, keyed by its
final (import-offset) index. -/
def gen_func_list (m : Module) : Option String :=
  (mapOption (fun p =>
      (visitFunction p.2).map (fun t =>
        write_func_start m p.1 (m.import_count ExternalKind.func) ++ t))
    m.funcs.enum).map String.join

/-- The four pre-sized index-space storage declarations of
`Generator::transpile`, in emission order. -/
def moduleArrayDecls (m : Module) : List String :=
  [write_named_array "FUNC_LIST" m.functions_space,
   write_named_array "TABLE_LIST" m.table_space,
   write_named_array "MEMORY_LIST" m.memory_space,
   write_named_array "GLOBAL_LIST" m.globals_space]

/-- `Generator::transpile` from `gen.rs`: the whole-module pipeline —
runtime require, localized helpers, typed zero literals, `table.new`
require, the four index-space declarations, every function literal, then
the start point.  A pure function of the module. -/
def transpile (m : Module) : Option String :=
  (gen_func_list m).map (fun fText =>
    "local rt = require(\"luajit\")" ++
      gen_localize m.funcs ++
      "local ZERO_i32 = 0 " ++ "local ZERO_i64 = 0LL " ++
      "local ZERO_f32 = 0.0 " ++ "local ZERO_f64 = 0.0 " ++
      "local table_new = require(\"table.new\")" ++
      String.join (moduleArrayDecls m) ++
      fText ++
      gen_start_point m)

/-- A concrete visitor for the `BrTable` example: four open labels, the
innermost being 10, inside a one-parameter function. -/
def visitorEx : Visitor :=
  { label_list := [7, 8, 9, 10], num_label := 11, num_param := 1 }

/-- The guard texts emitted for the example table `[0,0,0,1,1,2]` under
`visitorEx`'s label stack. -/
def guardsEx : List String :=
  ["if temp >= 0 and temp <= 2 then goto continue_at_10 else",
   "if temp >= 3 and temp <= 4 then goto continue_at_9 else",
   "if temp == 5 then goto continue_at_8 else"]

/-- The function AST of the example module: one parameter, two `i32`
locals, one temporary, a body returning the parameter from a block. -/
def funcEx : Function :=
  { num_param := 1
    local_data := [{ count := 2, value_type := "i32" }]
    num_stack := 1
    code := Statement.forward [Statement.ret [Expression.getLocal 0]] }

/-- A concrete module exercising every section of the assembler: one
imported function, one defined function, a table, a memory, a global with
a literal initializer, a data segment, and an export. -/
def moduleEx : Module :=
  { imports := [{ module := "env", field := "print", kind := ExternalKind.func }]
    exports := [{ field := "main", kind := ExternalKind.func, index := 1 }]
    tables := [{ initial := 1, maximum := none }]
    memories := [{ initial := 1, maximum := some 2 }]
    globals := [{ init_code := [ConstInstruction.i32Const 42] }]
    elements := [{ index := 0, offset_code := [ConstInstruction.i32Const 0], members := [1] }]
    data := [{ index := 0, offset_code := [ConstInstruction.i32Const 8], value := [72, 105] }]
    start := none
    func_names := [(0, "main")]
    funcs := [funcEx] }

end Gen

namespace WasmAst

/-- C1: `Stack::leak_at` is idempotent per slot: if the slot at `index`
already holds a bare read of its canonical temporary `previous + index`,
`leak_at` emits no statement and leaves the whole stack (in particular the
capacity high-water mark) unchanged; and after any in-bounds `leak_at`, a
second call on the same slot emits no statement and leaves the resulting
stack unchanged. -/
theorem leak_at_idempotent (s : Stack) (index : Nat) (h : index < s.len) :
    (∀ old, s.var_list[index]? = some old →
        old.is_temporary (s.previous + index) = true →
        s.leak_at index = some (none, s))
    ∧ (∀ st s', s.leak_at index = some (st, s') →
        s'.leak_at index = some (none, s')) := by
  constructor
  · intro old hget htemp
    simp [Stack.leak_at, hget, htemp]
  · intro st s' hleak
    cases hget : s.var_list[index]? with
    | none =>
        rw [Stack.leak_at, hget] at hleak
        exact absurd hleak (by simp)
    | some old =>
        simp only [Stack.leak_at, hget] at hleak
        by_cases htemp : old.is_temporary (s.previous + index) = true
        · rw [if_pos htemp] at hleak
          injection hleak with h1
          injection h1 with h2 h3
          subst h3
          simp [Stack.leak_at, hget, htemp]
        · rw [if_neg htemp] at hleak
          injection hleak with h1
          injection h1 with h2 h3
          subst h3
          have hset : (s.var_list.set index
              { read := ∅, data := Expression.getTemporary (s.previous + index) })[index]? =
              some { read := ∅, data := Expression.getTemporary (s.previous + index) } :=
            List.getElem?_set_eq_of_lt _ (by simpa [Stack.len] using h)
          simp [Stack.leak_at, hset, Slot.is_temporary]

/-- C1 witness: on the concrete stack, leaking slot 1 materializes it into
temporary 4, and a second leak of the same slot is a no-op returning the
unchanged stack (same capacity); the already-canonical case is also
exercised directly. -/
theorem leak_at_idempotent_witness :
    stackEx.leak_at 1 =
      some (some (Statement.setTemporary 4 (Expression.getGlobal 1)), stackExLeaked)
    ∧ stackExLeaked.leak_at 1 = some (none, stackExLeaked)
    ∧ stackExLeaked.leak_at 1 = some (none, stackExLeaked) :=
  ⟨by decide,
   (leak_at_idempotent stackEx 1 (by decide)).2
     (some (Statement.setTemporary 4 (Expression.getGlobal 1))) stackExLeaked (by decide),
   (leak_at_idempotent stackExLeaked 1 (by decide)).1
     { read := ∅, data := Expression.getTemporary 4 } (by decide) (by decide)⟩

/-- C9: frame effect of `Stack::leak_at` when it materializes: exactly the
slot at `index` and the `capacity` field change — the slot becomes a bare
read of temporary `previous + index` with an empty hazard set, the returned
statement writes the slot's old expression to that temporary, and every
other slot, the length, and the `previous` offset are untouched, while the
capacity becomes `max capacity (previous + index + 1)`. -/
theorem leak_at_frame (s : Stack) (index : Nat) (st : Statement) (s' : Stack)
    (h : s.leak_at index = some (some st, s')) :
    (∃ old, s.var_list[index]? = some old ∧
        old.is_temporary (s.previous + index) = false ∧
        st = Statement.setTemporary (s.previous + index) old.data) ∧
    s'.var_list[index]? =
      some { read := ∅, data := Expression.getTemporary (s.previous + index) } ∧
    (∀ j, j ≠ index → s'.var_list[j]? = s.var_list[j]?) ∧
    s'.len = s.len ∧
    s'.previous = s.previous ∧
    s'.capacity = max s.capacity (s.previous + index + 1) := by
  cases hget : s.var_list[index]? with
  | none =>
      rw [Stack.leak_at, hget] at h
      exact absurd h (by simp)
  | some old =>
      have hlen : index < s.var_list.length := by
        rcases Nat.lt_or_ge index s.var_list.length with hlt | hge
        · exact hlt
        · rw [List.getElem?_eq_none hge] at hget; cases hget
      simp only [Stack.leak_at, hget] at h
      by_cases htemp : old.is_temporary (s.previous + index) = true
      · rw [if_pos htemp] at h
        exact absurd h (by simp)
      · rw [if_neg htemp] at h
        injection h with h1
        injection h1 with h2 h3
        injection h2 with h4
        subst h4
        subst h3
        refine ⟨⟨old, rfl, by simpa using htemp, rfl⟩, ?_, ?_, ?_, rfl, rfl⟩
        · exact List.getElem?_set_eq_of_lt _ hlen
        · intro j hj
          exact List.getElem?_set_ne (Ne.symm hj)
        · simp [Stack.len]

/-- C9 witness: leaking slot 1 of the concrete stack changes only that slot
and the capacity, and the materialized statement/slot are as described. -/
theorem leak_at_frame_witness :
    stackExLeaked.var_list[1]? =
      some { read := ∅, data := Expression.getTemporary 4 }
    ∧ stackExLeaked.var_list[0]? = stackEx.var_list[0]?
    ∧ stackExLeaked.len = stackEx.len
    ∧ stackExLeaked.previous = stackEx.previous
    ∧ stackExLeaked.capacity = max stackEx.capacity (stackEx.previous + 1 + 1) :=
  let h := leak_at_frame stackEx 1
    (Statement.setTemporary 4 (Expression.getGlobal 1)) stackExLeaked (by decide)
  ⟨h.2.1, h.2.2.1 0 (by decide), h.2.2.2.1, h.2.2.2.2.1, h.2.2.2.2.2⟩

/-- C3: `Stack::get_br_alignment` returns the descriptor whose destination
first index is the target scope's start, whose source first index is
`len + previous - result_arity` (the first of the top `result_arity` live
temporaries), and whose length is the result arity; in particular the
copied source range ends exactly at the stack top. -/
theorem get_br_alignment_spec (s : Stack) (par_start par_result : Nat)
    (h : par_result ≤ s.len + s.previous) :
    s.get_br_alignment par_start par_result =
      some { new := par_start
             old := s.len + s.previous - par_result
             length := par_result }
    ∧ ∀ a, s.get_br_alignment par_start par_result = some a →
        a.old + a.length = s.len + s.previous := by
  constructor
  · simp [Stack.get_br_alignment, h]
  · intro a ha
    simp only [Stack.get_br_alignment, if_pos h] at ha
    injection ha with ha
    subst ha
    simp only []
    omega

/-- C3 witness: on the concrete stack (`len = 2`, `previous = 3`), a branch
needing 2 results into a scope starting at temporary 7 copies 2 values with
source first index 3. -/
theorem get_br_alignment_spec_witness :
    stackEx.get_br_alignment 7 2 = some { new := 7, old := 3, length := 2 }
    ∧ Align.old { new := 7, old := 3, length := 2 } +
        Align.length { new := 7, old := 3, length := 2 } =
        stackEx.len + stackEx.previous :=
  ⟨(get_br_alignment_spec stackEx 7 2 (by decide)).1,
   (get_br_alignment_spec stackEx 7 2 (by decide)).2
     { new := 7, old := 3, length := 2 } (by decide)⟩

/-- C4: `Stack::split_last` retains the first `len(S) - len` slots in the
parent and moves the trailing `len` slots, in order, into a new stack whose
`previous` offset is the parent's `previous` plus the retained length and
whose capacity equals the parent's capacity at the split. -/
theorem split_last_spec (s : Stack) (len : Nat) (h : len ≤ s.len) :
    s.split_last len =
      some ({ s with var_list := s.var_list.take (s.len - len) },
        { var_list := s.var_list.drop (s.len - len)
          capacity := s.capacity
          previous := s.previous + (s.len - len) })
    ∧ ∀ parent child, s.split_last len = some (parent, child) →
        parent.var_list ++ child.var_list = s.var_list
        ∧ parent.len = s.len - len
        ∧ child.len = len
        ∧ child.previous = s.previous + (s.len - len)
        ∧ child.capacity = s.capacity
        ∧ parent.previous = s.previous
        ∧ parent.capacity = s.capacity := by
  constructor
  · simp [Stack.split_last, h]
  · intro parent child hsplit
    simp only [Stack.split_last, if_pos h] at hsplit
    injection hsplit with h1
    injection h1 with h2 h3
    subst h2
    subst h3
    have h' : len ≤ s.var_list.length := h
    refine ⟨List.take_append_drop _ _, ?_, ?_, rfl, rfl, rfl, rfl⟩
    · simp only [Stack.len, List.length_take]
      omega
    · simp only [Stack.len, List.length_drop]
      omega

/-- C4 witness: splitting one slot off the concrete two-slot stack. -/
theorem split_last_spec_witness :
    stackEx.split_last 1 = some (stackParentEx, stackChildEx)
    ∧ (stackParentEx.var_list ++ stackChildEx.var_list = stackEx.var_list
        ∧ stackParentEx.len = stackEx.len - 1
        ∧ stackChildEx.len = 1
        ∧ stackChildEx.previous = stackEx.previous + (stackEx.len - 1)
        ∧ stackChildEx.capacity = stackEx.capacity
        ∧ stackParentEx.previous = stackEx.previous
        ∧ stackParentEx.capacity = stackEx.capacity) :=
  ⟨by decide,
   (split_last_spec stackEx 1 (by decide)).2 stackParentEx stackChildEx (by decide)⟩

/-- C6: `Stack::push_with_single` appends exactly one slot holding the given
expression whose hazard read-set is the appropriate singleton — the local
index for a local read, the global index for a global read, and memory 0
(the only memory this AST addresses) for a load — leaving every other slot,
the capacity, and the `previous` offset unchanged; any other expression
shape is outside its precondition (an `unreachable!` panic). -/
theorem push_with_single_spec (s : Stack) :
    (∀ i, s.push_with_single (Expression.getLocal i) =
        some { s with var_list := s.var_list ++
          [{ read := {ReadType.localIdx i}, data := Expression.getLocal i }] })
    ∧ (∀ i, s.push_with_single (Expression.getGlobal i) =
        some { s with var_list := s.var_list ++
          [{ read := {ReadType.globalIdx i}, data := Expression.getGlobal i }] })
    ∧ (∀ o p, s.push_with_single (Expression.loadAt o p) =
        some { s with var_list := s.var_list ++
          [{ read := {ReadType.memoryIdx 0}, data := Expression.loadAt o p }] })
    ∧ (∀ data, (∀ i, data ≠ Expression.getLocal i) →
        (∀ i, data ≠ Expression.getGlobal i) →
        (∀ o p, data ≠ Expression.loadAt o p) →
        s.push_with_single data = none) := by
  refine ⟨fun i => rfl, fun i => rfl, fun o p => rfl, ?_⟩
  intro data h1 h2 h3
  cases data with
  | getLocal i => exact absurd rfl (h1 i)
  | getGlobal i => exact absurd rfl (h2 i)
  | loadAt o p => exact absurd rfl (h3 o p)
  | getTemporary v => rfl
  | value n => rfl
  | anyBinOp l r => rfl
  | select c a b => rfl

/-- C6 witness: pushing a local read tags it with exactly that local cell,
and pushing a literal (no recognized shape) is outside the precondition. -/
theorem push_with_single_spec_witness :
    stackEx.push_with_single (Expression.getLocal 2) =
      some { stackEx with var_list := stackEx.var_list ++
        [{ read := {ReadType.localIdx 2}, data := Expression.getLocal 2 }] }
    ∧ stackEx.push_with_single (Expression.value 0) = none :=
  ⟨(push_with_single_spec stackEx).1 2,
   (push_with_single_spec stackEx).2.2.2 (Expression.value 0)
     (fun i => by simp) (fun i => by simp) (fun o p => by simp)⟩

/-- C10: the capacity high-water mark is monotone: `push`,
`push_with_read`, `push_with_single`, `pop`, `pop_with_read` and `pop_len`
leave `capacity` unchanged; `push_temporary` and `leak_at` only raise it to
a maximum; `split_last` gives both halves the parent's current capacity;
and every temporary index assigned by `push_temporary` or a materializing
`leak_at` stays strictly below the resulting capacity. -/
theorem capacity_monotone :
    (∀ (s : Stack) (e : Expression), (s.push e).capacity = s.capacity)
    ∧ (∀ (s : Stack) (e : Expression) (r : Finset ReadType),
        (s.push_with_read e r).capacity = s.capacity)
    ∧ (∀ (s s' : Stack) (e : Expression), s.push_with_single e = some s' →
        s'.capacity = s.capacity)
    ∧ (∀ (s s' : Stack) (p : (Expression × Finset ReadType)),
        s.pop_with_read = some (p, s') → s'.capacity = s.capacity)
    ∧ (∀ (s s' : Stack) (e : Expression), s.pop = some (e, s') →
        s'.capacity = s.capacity)
    ∧ (∀ (s s' : Stack) (n : Nat) (l : List Expression),
        s.pop_len n = some (l, s') → s'.capacity = s.capacity)
    ∧ (∀ (s : Stack) (n : Nat),
        s.capacity ≤ (s.push_temporary n).capacity
        ∧ (s.push_temporary n).capacity = max s.capacity (s.len + s.previous + n))
    ∧ (∀ (s s' : Stack) (i : Nat) (r : Option Statement),
        s.leak_at i = some (r, s') → s.capacity ≤ s'.capacity)
    ∧ (∀ (s parent child : Stack) (n : Nat),
        s.split_last n = some (parent, child) →
        child.capacity = s.capacity ∧ parent.capacity = s.capacity)
    ∧ (∀ (s : Stack) (n i : Nat), i < n →
        s.len + s.previous + i + 1 ≤ (s.push_temporary n).capacity)
    ∧ (∀ (s s' : Stack) (i : Nat) (st : Statement),
        s.leak_at i = some (some st, s') → s.previous + i + 1 ≤ s'.capacity) := by
  refine ⟨fun s e => rfl, fun s e r => rfl, ?_, ?_, ?_, ?_, ?_, ?_, ?_, ?_, ?_⟩
  · intro s s' e h
    cases e <;> simp only [Stack.push_with_single] at h <;>
      first
        | (injection h with h1; subst h1; rfl)
        | cases h
  · intro s s' p h
    cases hlast : s.var_list.getLast? with
    | none => rw [Stack.pop_with_read, hlast] at h; cases h
    | some slot =>
        rw [Stack.pop_with_read, hlast] at h
        injection h with h1
        injection h1 with h2 h3
        subst h3
        rfl
  · intro s s' e h
    simp only [Stack.pop] at h
    cases hread : s.pop_with_read with
    | none => rw [hread] at h; cases h
    | some q =>
        rw [hread] at h
        injection h with h1
        injection h1 with h2 h3
        subst h3
        cases hlast : s.var_list.getLast? with
        | none => rw [Stack.pop_with_read, hlast] at hread; cases hread
        | some slot =>
            rw [Stack.pop_with_read, hlast] at hread
            injection hread with h4
            subst h4
            rfl
  · intro s s' n l h
    by_cases hn : n ≤ s.len
    · simp only [Stack.pop_len, if_pos hn] at h
      injection h with h1
      injection h1 with h2 h3
      subst h3
      rfl
    · simp only [Stack.pop_len, if_neg hn] at h
      cases h
  · intro s n
    exact ⟨Nat.le_max_left _ _, rfl⟩
  · intro s s' i r h
    cases hget : s.var_list[i]? with
    | none => rw [Stack.leak_at, hget] at h; cases h
    | some old =>
        simp only [Stack.leak_at, hget] at h
        by_cases htemp : old.is_temporary (s.previous + i) = true
        · rw [if_pos htemp] at h
          injection h with h1
          injection h1 with h2 h3
          subst h3
          exact Nat.le_refl _
        · rw [if_neg htemp] at h
          injection h with h1
          injection h1 with h2 h3
          subst h3
          exact Nat.le_max_left _ _
  · intro s parent child n h
    by_cases hn : n ≤ s.len
    · simp only [Stack.split_last, if_pos hn] at h
      injection h with h1
      injection h1 with h2 h3
      subst h2
      subst h3
      exact ⟨rfl, rfl⟩
    · simp only [Stack.split_last, if_neg hn] at h
      cases h
  · intro s n i hi
    simp only [Stack.push_temporary]
    omega
  · intro s s' i st h
    cases hget : s.var_list[i]? with
    | none => rw [Stack.leak_at, hget] at h; cases h
    | some old =>
        simp only [Stack.leak_at, hget] at h
        by_cases htemp : old.is_temporary (s.previous + i) = true
        · rw [if_pos htemp] at h
          cases h
        · rw [if_neg htemp] at h
          injection h with h1
          injection h1 with h2 h3
          subst h3
          simp only []
          omega

/-- C10 witness: concrete instances — a plain push keeps capacity 0, a
materializing leak raises it to 5 ≥ 0 and covers temporary 4, a split hands
capacity 0 to both halves, and pushing 2 temporaries covers each new
index. -/
theorem capacity_monotone_witness :
    (stackEx.push (Expression.value 7)).capacity = stackEx.capacity
    ∧ stackEx.capacity ≤ stackExLeaked.capacity
    ∧ (stackChildEx.capacity = stackEx.capacity ∧ stackParentEx.capacity = stackEx.capacity)
    ∧ stackEx.len + stackEx.previous + 0 + 1 ≤ (stackEx.push_temporary 2).capacity
    ∧ stackEx.previous + 1 + 1 ≤ stackExLeaked.capacity :=
  ⟨capacity_monotone.1 stackEx (Expression.value 7),
   capacity_monotone.2.2.2.2.2.2.2.1 stackEx stackExLeaked 1
     (some (Statement.setTemporary 4 (Expression.getGlobal 1))) (by decide),
   capacity_monotone.2.2.2.2.2.2.2.2.1 stackEx stackParentEx stackChildEx 1 (by decide),
   capacity_monotone.2.2.2.2.2.2.2.2.2.1 stackEx 2 0 (by decide),
   capacity_monotone.2.2.2.2.2.2.2.2.2.2 stackEx stackExLeaked 1
     (Statement.setTemporary 4 (Expression.getGlobal 1)) (by decide)⟩

end WasmAst

namespace Gen

theorem innerEndAux_ge (list : List Nat) :
    ∀ fuel index, index + 1 ≤ innerEndAux list fuel index := by
  intro fuel
  induction fuel with
  | zero => intro index; simp [innerEndAux]
  | succ fuel ih =>
      intro index
      by_cases h : index + 1 < list.length ∧ list[index]? = list[index + 1]?
      · calc index + 1 ≤ index + 2 := by omega
          _ ≤ innerEndAux list fuel (index + 1) := ih (index + 1)
          _ = innerEndAux list (fuel + 1) index := by rw [innerEndAux, if_pos h]
      · rw [innerEndAux, if_neg h]

theorem innerEndAux_le (list : List Nat) :
    ∀ fuel index, index < list.length → innerEndAux list fuel index ≤ list.length := by
  intro fuel
  induction fuel with
  | zero => intro index h; simp [innerEndAux]; omega
  | succ fuel ih =>
      intro index h
      by_cases hc : index + 1 < list.length ∧ list[index]? = list[index + 1]?
      · rw [innerEndAux, if_pos hc]
        exact ih (index + 1) hc.1
      · rw [innerEndAux, if_neg hc]
        omega

/-- Every position strictly inside the run found by the inner loop holds the
same entry as the run's start. -/
theorem innerEndAux_run_const (list : List Nat) :
    ∀ fuel index k, index ≤ k → k < innerEndAux list fuel index →
      list[k]? = list[index]? := by
  intro fuel
  induction fuel with
  | zero =>
      intro index k hik hk
      rw [innerEndAux] at hk
      have : k = index := by omega
      rw [this]
  | succ fuel ih =>
      intro index k hik hk
      by_cases hc : index + 1 < list.length ∧ list[index]? = list[index + 1]?
      · rw [innerEndAux, if_pos hc] at hk
        rcases Nat.eq_or_lt_of_le hik with heq | hlt
        · rw [heq]
        · have := ih (index + 1) k (by omega) hk
          rw [this, hc.2]
      · rw [innerEndAux, if_neg hc] at hk
        have : k = index := by omega
        rw [this]

/-- The run found by the inner loop is maximal: it stops at the end of the
table or at a position whose entry differs from its predecessor. -/
theorem innerEndAux_boundary (list : List Nat) :
    ∀ fuel index, index < list.length → list.length ≤ fuel + index →
      innerEndAux list fuel index = list.length ∨
      list[innerEndAux list fuel index - 1]? ≠ list[innerEndAux list fuel index]? := by
  intro fuel
  induction fuel with
  | zero =>
      intro index h hfuel
      omega
  | succ fuel ih =>
      intro index h hfuel
      by_cases hc : index + 1 < list.length ∧ list[index]? = list[index + 1]?
      · rw [innerEndAux, if_pos hc]
        exact ih (index + 1) hc.1 (by omega)
      · rw [innerEndAux, if_neg hc]
        rcases Nat.lt_or_ge (index + 1) list.length with hlt | hge
        · right
          simpa using fun heq => hc ⟨hlt, heq⟩
        · left
          omega

theorem innerEnd_ge (list : List Nat) (index : Nat) : index + 1 ≤ innerEnd list index :=
  innerEndAux_ge list _ index

theorem innerEnd_le (list : List Nat) (index : Nat) (h : index < list.length) :
    innerEnd list index ≤ list.length :=
  innerEndAux_le list _ index h

theorem innerEnd_run_const (list : List Nat) (index k : Nat) (hik : index ≤ k)
    (hk : k < innerEnd list index) : list[k]? = list[index]? :=
  innerEndAux_run_const list _ index k hik hk

theorem innerEnd_boundary (list : List Nat) (index : Nat) (h : index < list.length) :
    innerEnd list index = list.length ∨
    list[innerEnd list index - 1]? ≠ list[innerEnd list index]? :=
  innerEndAux_boundary list _ index h (by omega)

theorem mapOption_length {α β : Type} (f : α → Option β) :
    ∀ (l : List α) (gs : List β), mapOption f l = some gs → gs.length = l.length := by
  intro l
  induction l with
  | nil =>
      intro gs h
      simp only [mapOption] at h
      injection h with h1
      subst h1
      rfl
  | cons a t ih =>
      intro gs h
      simp only [mapOption] at h
      cases hfa : f a with
      | none => rw [hfa] at h; simp at h
      | some b =>
          rw [hfa] at h
          cases hmt : mapOption f t with
          | none => rw [hmt] at h; simp at h
          | some bs =>
              rw [hmt] at h
              have h' : some (b :: bs) = some gs := h
              injection h' with h1
              subst h1
              simp [ih bs hmt]

/-- The outer loop of `condense_jump_table` produces a contiguous tiling of
`[index, length)` by runs of constant value, maximal in the sense that
adjacent runs carry different targets. -/
theorem condenseGoAux_spec (list : List Nat) :
    ∀ fuel index, index ≤ list.length → list.length ≤ fuel + index →
      contiguousSpan list.length index (condenseGoAux list fuel index)
      ∧ (∀ r ∈ condenseGoAux list fuel index,
          ∀ k, r.1 ≤ k → k ≤ r.2.1 → list[k]? = some r.2.2)
      ∧ List.Chain' (fun a b => a.2.2 ≠ b.2.2) (condenseGoAux list fuel index) := by
  intro fuel
  induction fuel with
  | zero =>
      intro index h1 h2
      have hix : index = list.length := by omega
      subst hix
      simp [condenseGoAux, contiguousSpan]
  | succ fuel ih =>
      intro index h1 h2
      by_cases hidx : index < list.length
      · have hge : index + 1 ≤ innerEnd list index := innerEnd_ge list index
        have hle : innerEnd list index ≤ list.length := innerEnd_le list index hidx
        obtain ⟨ihSpan, ihVals, ihChain⟩ := ih (innerEnd list index) (by omega) (by omega)
        have hsome : list[index]? = some (list.getD index 0) := by
          rw [List.getD_eq_getElem?_getD, List.getElem?_eq_getElem hidx]
          rfl
        simp only [condenseGoAux, if_pos hidx]
        refine ⟨⟨rfl, by omega, by omega, ?_⟩, ?_, ?_⟩
        · have he1 : innerEnd list index - 1 + 1 = innerEnd list index := by omega
          rw [he1]
          exact ihSpan
        · intro r hr k hk1 hk2
          rcases List.mem_cons.mp hr with heq | hmem
          · subst heq
            simp only at hk1 hk2 ⊢
            have hke : k < innerEnd list index := by omega
            rw [innerEnd_run_const list index k hk1 hke]
            exact hsome
          · exact ihVals r hmem k hk1 hk2
        · cases hrest : condenseGoAux list fuel (innerEnd list index) with
          | nil => simp
          | cons r' tail =>
              obtain ⟨s', e', t'⟩ := r'
              rw [hrest] at ihSpan ihVals ihChain
              simp only [contiguousSpan] at ihSpan
              obtain ⟨hstart, hfirst, hendlt, -⟩ := ihSpan
              rw [List.chain'_cons]
              refine ⟨?_, ihChain⟩
              have helen : innerEnd list index < list.length := by omega
              rcases innerEnd_boundary list index hidx with hb | hb
              · omega
              · have hrun : list[innerEnd list index - 1]? = list[index]? :=
                  innerEnd_run_const list index (innerEnd list index - 1) (by omega) (by omega)
                have hnext : list[innerEnd list index]? = some t' := by
                  have hres := ihVals (s', e', t') (List.mem_cons_self _ _)
                    (innerEnd list index)
                    (show s' ≤ innerEnd list index by omega)
                    (show innerEnd list index ≤ e' by omega)
                  exact hres
                intro hcontra
                have hcontra' : list.getD index 0 = t' := hcontra
                apply hb
                rw [hrun, hnext, hsome, hcontra']
      · have hix : index = list.length := by omega
        subst hix
        simp [condenseGoAux, hidx, contiguousSpan]

set_option maxRecDepth 8000 in
/-- C2: `condense_jump_table` partitions a branch table into its maximal
runs of consecutive equal targets — the `(start, end, target)` triples tile
`[0, length)` contiguously, every index inside a run holds the run's
target, and adjacent runs have different targets; for `[0,0,0,1,1,2]` it
returns exactly `(0,2,0), (3,4,1), (5,5,2)`; and the `BrTable` emitter
writes exactly one guard per returned run (an equality or range
comparison) plus the default branch, as the concrete emission shows. -/
theorem condense_jump_table_spec :
    condense_jump_table [0, 0, 0, 1, 1, 2] = [(0, 2, 0), (3, 4, 1), (5, 5, 2)]
    ∧ (∀ list : List Nat,
        contiguousSpan list.length 0 (condense_jump_table list)
        ∧ (∀ r ∈ condense_jump_table list,
            ∀ k, r.1 ≤ k → k ≤ r.2.1 → list[k]? = some r.2.2)
        ∧ List.Chain' (fun a b => a.2.2 ≠ b.2.2) (condense_jump_table list))
    ∧ (∀ (labels table : List Nat) (gs : List String),
        mapOption (brTableGuard labels) (condense_jump_table table) = some gs →
        gs.length = (condense_jump_table table).length)
    ∧ visitStmt visitorEx (Statement.brTable (Expression.getLocal 0) [0, 0, 0, 1, 1, 2] 3) =
        some (visitorEx,
          "temp = param_0  " ++ String.join guardsEx ++ " goto continue_at_7 end ") := by
  refine ⟨by decide, ?_, ?_, ?_⟩
  · intro list
    exact condenseGoAux_spec list list.length 0 (by omega) (by omega)
  · intro labels table gs h
    exact mapOption_length _ _ _ h
  · rw [visitStmt]
    decide

/-- C2 witness: the general partition facts instantiated on the example
table, and the guard count for the concrete emission. -/
theorem condense_jump_table_spec_witness :
    contiguousSpan 6 0 (condense_jump_table [0, 0, 0, 1, 1, 2])
    ∧ [0, 0, 0, 1, 1, 2][1]? = some 0
    ∧ guardsEx.length = (condense_jump_table [0, 0, 0, 1, 1, 2]).length :=
  ⟨(condense_jump_table_spec.2.1 [0, 0, 0, 1, 1, 2]).1,
   (condense_jump_table_spec.2.1 [0, 0, 0, 1, 1, 2]).2.1 (0, 2, 0) (by decide)
     1 (by decide) (by decide),
   condense_jump_table_spec.2.2.1 [7, 8, 9, 10] [0, 0, 0, 1, 1, 2] guardsEx (by decide)⟩

/-- C5: when a constant-expression context contains no recognized constant
form (no integer/float literal and no global read), `write_constant` does
not fail: it returns normally and emits the guaranteed-failing placeholder
`error("mundane expression")` in place of the constant — in particular a
global initializer degrades to a slot whose value is that placeholder
call. -/
theorem write_constant_fallback :
    (∀ code : List ConstInstruction, (∀ i ∈ code, recognized i = false) →
        write_constant code = "error(\"mundane expression\")")
    ∧ (∀ (idx : Nat) (g : GlobalEntry), (∀ i ∈ g.init_code, recognized i = false) →
        global_entry_text idx g =
          "GLOBAL_LIST[" ++ toString idx ++ "] = \x7b value =" ++
            "error(\"mundane expression\")" ++ "\x7d") := by
  have main : ∀ code : List ConstInstruction, (∀ i ∈ code, recognized i = false) →
      write_constant code = "error(\"mundane expression\")" := by
    intro code h
    induction code with
    | nil => rfl
    | cons a t ih =>
        cases a with
        | other tag =>
            exact ih (fun i hi => h i (List.mem_cons_of_mem _ hi))
        | i32Const v =>
            have := h _ (List.mem_cons_self _ _)
            simp [recognized] at this
        | i64Const v =>
            have := h _ (List.mem_cons_self _ _)
            simp [recognized] at this
        | f32Const bits =>
            have := h _ (List.mem_cons_self _ _)
            simp [recognized] at this
        | f64Const bits =>
            have := h _ (List.mem_cons_self _ _)
            simp [recognized] at this
        | getGlobal i =>
            have := h _ (List.mem_cons_self _ _)
            simp [recognized] at this
  refine ⟨main, ?_⟩
  intro idx g h
  simp only [global_entry_text, main g.init_code h]

/-- C5 witness: a constant context holding only unrecognized instructions
yields the placeholder, both bare and inside a global initializer slot. -/
theorem write_constant_fallback_witness :
    write_constant [ConstInstruction.other 0, ConstInstruction.other 7] =
      "error(\"mundane expression\")"
    ∧ global_entry_text 2 { init_code := [ConstInstruction.other 0] } =
        "GLOBAL_LIST[2] = \x7b value =error(\"mundane expression\")\x7d" :=
  ⟨write_constant_fallback.1 _ (by decide),
   write_constant_fallback.2 2 { init_code := [ConstInstruction.other 0] } (by decide)⟩

/-- C7 counterexample: the claim says the declared array size equals the
space's total count, but `write_named_array` passes the count
saturating-decremented by one as the `table_new` array-size argument — for
a function space of total count 5 the emitted declaration is
`table_new(4, 1)`, and 4 ≠ 5. -/
theorem write_named_array_counterexample :
    named_array_len_arg 5 ≠ 5
    ∧ write_named_array "FUNC_LIST" 5 =
        "local FUNC_LIST = table_new(4, 1)" := by
  exact ⟨by decide, by decide⟩

/-- C7 (amended): for each of the four index spaces the module assembler
emits exactly one pre-sized storage declaration, sized to that space's
total count (import count + locally-defined count) — but split by
`write_named_array` into a `table_new` array-size argument of the count
minus one (saturating) and a one-slot hash part whenever the count is
positive (index 0 lives in the hash part), so the total preallocated slot
count equals the space's total count. -/
theorem moduleArrayDecls_spec (m : Module) :
    moduleArrayDecls m =
      [write_named_array "FUNC_LIST" m.functions_space,
       write_named_array "TABLE_LIST" m.table_space,
       write_named_array "MEMORY_LIST" m.memory_space,
       write_named_array "GLOBAL_LIST" m.globals_space]
    ∧ (moduleArrayDecls m).length = 4
    ∧ (∀ len, 1 ≤ len → named_array_len_arg len + named_array_hash_arg len = len)
    ∧ named_array_len_arg 0 + named_array_hash_arg 0 = 0 := by
  refine ⟨rfl, rfl, ?_, rfl⟩
  intro len h
  simp only [named_array_len_arg, named_array_hash_arg]
  omega

/-- C7 witness: the example module gets exactly four storage declarations,
and a space of total count 5 preallocates 4 + 1 = 5 slots. -/
theorem moduleArrayDecls_spec_witness :
    (moduleArrayDecls moduleEx).length = 4
    ∧ named_array_len_arg 5 + named_array_hash_arg 5 = 5 :=
  ⟨(moduleArrayDecls_spec moduleEx).2.1,
   (moduleArrayDecls_spec moduleEx).2.2.1 5 (by decide)⟩

/-- C8: whole-module translation is deterministic — `transpile` is a pure
function of the input module (with its type info), so translating the same
valid input twice yields byte-identical output text. -/
theorem transpile_deterministic (m₁ m₂ : Module) (h : m₁ = m₂) :
    transpile m₁ = transpile m₂ := by
  rw [h]

/-- C8 witness: two runs on the concrete example module agree. -/
theorem transpile_deterministic_witness :
    transpile moduleEx = transpile moduleEx :=
  transpile_deterministic moduleEx moduleEx rfl

end Gen
